import Mathlib

/-!
Shallow embedding of `src/render.rs` from the typst-bot repository,
together with theorems settling the specification claims about it.

Modelling conventions:
* Rust `&str` text is modelled as `List Char`; byte offsets are the
  cumulative UTF-8 sizes (`Char.utf8Size`) of the characters, exactly the
  offsets produced by Rust's `str::char_indices`.
* `usize` values are modelled as `Nat`; the one subtraction that can
  underflow (`span.end - span.start` in `byte_span_to_char_span`) is
  modelled with release-mode wrapping semantics, `usizeSub`, and the
  places where it underflows are tracked by an explicit predicate.
* `f32` arithmetic in `determine_pixels_per_point` is idealised: the
  already-converted point sizes are rationals and the returned scale is a
  real number (`Real.sqrt` for `f32::sqrt`).
* External collaborators (the typst compiler, the ariadne report
  renderer, the rasterizer and the PNG encoder) are parameters of the
  functions that call them; only the code of `render.rs` is embedded.
-/

namespace RenderRs

/-- Byte length of a text under UTF-8, as Rust `str::len` reports it. -/
def utf8Len (s : List Char) : Nat :=
  (s.map Char.utf8Size).sum

/-- `struct CharIndex { first_byte: usize, char_index: usize }`
(render.rs lines 54-58). -/
structure CharIndex where
  first_byte : Nat
  char_index : Nat
deriving DecidableEq, Repr

/-- `impl Add for CharIndex` (render.rs lines 60-69): component-wise sum. -/
def CharIndex.add (a b : CharIndex) : CharIndex :=
  ⟨a.first_byte + b.first_byte, a.char_index + b.char_index⟩

/-- The stream `source.char_indices().enumerate().map(...)` of render.rs
lines 72-78, accumulated from a given byte offset and char ordinal:
one `CharIndex` per character, pairing its first byte offset with its
character index. -/
def charBoundariesAux : List Char → Nat → Nat → List CharIndex
  | [], _, _ => []
  | c :: cs, fb, ci => ⟨fb, ci⟩ :: charBoundariesAux cs (fb + c.utf8Size) (ci + 1)

/-- All character boundaries of a text, in order. -/
def charBoundaries (s : List Char) : List CharIndex :=
  charBoundariesAux s 0 0

/-- `fn byte_index_to_char_index` (render.rs lines 71-80): the first
character boundary whose byte offset is `>=` the requested byte index. -/
def byte_index_to_char_index (source : List Char) (byte_index : Nat) : Option CharIndex :=
  (charBoundaries source).find? fun idx => byte_index ≤ idx.first_byte

/-- Rust release-mode `usize` subtraction: wraps modulo `2^64`. -/
def usizeSub (a b : Nat) : Nat :=
  (a + 2 ^ 64 - b) % 2 ^ 64

/-- Byte-offset slicing `&source[n..]`. It is only ever invoked at a
character boundary (the `first_byte` of a `CharIndex`), where it drops
exactly the characters before that boundary. -/
def dropBytes : List Char → Nat → List Char
  | s, 0 => s
  | [], _ + 1 => []
  | c :: cs, n + 1 => dropBytes cs (n + 1 - c.utf8Size)

/-- Lines 87-89 of render.rs: the body of `byte_span_to_char_span` after
the normalization swap has been applied to the span. -/
def resolveAfterNormalize (source : List Char) (span : Nat × Nat) : Option (Nat × Nat) :=
  match byte_index_to_char_index source span.1 with
  | none => none
  | some start =>
    match byte_index_to_char_index (dropBytes source start.first_byte)
        (usizeSub span.2 span.1) with
    | none => none
    | some e => some (start.char_index, (CharIndex.add e start).char_index)

/-- `fn byte_span_to_char_span` (render.rs lines 82-90): swap the bounds
when `start < end`, then resolve both bounds to character indices. -/
def byte_span_to_char_span (source : List Char) (span : Nat × Nat) : Option (Nat × Nat) :=
  let span := if span.1 < span.2 then (span.2, span.1) else span
  resolveAfterNormalize source span

/-- Marks the inputs on which line 88's `span.end - span.start` is an
underflowing `usize` subtraction: the normalized span's start must have
resolved to a boundary (so execution reaches the subtraction) and the
normalized end must be strictly below the normalized start. -/
def endDistanceUnderflows (source : List Char) (span : Nat × Nat) : Bool :=
  let span := if span.1 < span.2 then (span.2, span.1) else span
  match byte_index_to_char_index source span.1 with
  | none => false
  | some _ => decide (span.2 < span.1)

/-- `typst::syntax::ErrorPos`: which part of a diagnostic's span is
highlighted. -/
inductive ErrorPos where
  | Full
  | Start
  | End
deriving DecidableEq, Repr

/-- A compiler diagnostic as `SourceErrorsWithSource::fmt` consumes it:
the message, the byte range that `self.source.range(error.span)` resolves
the opaque span identifier to (that resolution lives in the external
typst crate), and the position kind. -/
structure Diagnostic where
  message : String
  span : Nat × Nat
  pos : ErrorPos
deriving DecidableEq, Repr

/-- Lines 117-121 of render.rs: adjust the resolved byte span according
to the diagnostic's position kind. -/
def adjustSpan (pos : ErrorPos) (span : Nat × Nat) : Nat × Nat :=
  match pos with
  | .Full => span
  | .Start => (span.1, span.1)
  | .End => (span.2, span.2)

/-- The loop of `SourceErrorsWithSource::fmt` (render.rs lines 113-134),
with the ariadne report rendering (an external crate) abstracted as the
`render` parameter producing one report block from a diagnostic and its
character span.  The accumulator is the text already written to the
formatter; the `Bool` is `true` for `Ok(())` and `false` for the
`Err(std::fmt::Error)` raised when span mapping fails. -/
def fmtGo (render : Diagnostic → Nat × Nat → String) (source : List Char) :
    List Diagnostic → String → String × Bool
  | [], acc => (acc, true)
  | d :: rest, acc =>
    match byte_span_to_char_span source (adjustSpan d.pos d.span) with
    | none => (acc, false)
    | some cs => fmtGo render source rest (acc ++ render d cs)

/-- `struct SourceErrorsWithSource` (render.rs lines 48-52). -/
structure SourceErrorsWithSource where
  source : List Char
  errors : List Diagnostic

/-- `impl Display for SourceErrorsWithSource` (render.rs lines 92-138):
format every diagnostic in order, starting from an empty formatter. -/
def SourceErrorsWithSource.fmt (render : Diagnostic → Nat × Nat → String)
    (self : SourceErrorsWithSource) : String × Bool :=
  fmtGo render self.source self.errors ""

/-- The report block rendered for one successfully mapped diagnostic. -/
def blockOf (render : Diagnostic → Nat × Nat → String) (source : List Char)
    (d : Diagnostic) : String :=
  match byte_span_to_char_span source (adjustSpan d.pos d.span) with
  | none => ""
  | some cs => render d cs

/-- Concatenation of report blocks in order, with no separators (render.rs
line 133 writes each block directly to the formatter). -/
def concatBlocks (l : List String) : String :=
  l.foldr (fun a b => a ++ b) ""

/-- Modelled from the spec: a report block (section 4.3 step 4 of the
spec) carries the severity and the diagnostic's message; the exact
ariadne layout lives in the external crate, so this stand-in keeps just
the part every block provably contains.  It is one concrete
instantiation of the abstract `render` parameter, used to exhibit
behaviour on concrete inputs. -/
def sampleBlock : Diagnostic → Nat × Nat → String :=
  fun d _ => "Error: " ++ d.message

/-- `typst::geom::Axis`, restricted to the two axes render.rs uses. -/
inductive Axis where
  | X
  | Y
deriving DecidableEq, Repr

/-- `struct TooBig { size: f32, axis: Axis }` (render.rs lines 16-23). -/
structure TooBig where
  size : ℚ
  axis : Axis
deriving DecidableEq, Repr

/-- `const DESIRED_RESOLUTION: f32 = 1000.0` (render.rs line 13). -/
def DESIRED_RESOLUTION : ℚ := 1000

/-- `const MAX_SIZE: f32 = 1000.0` (render.rs line 14). -/
def MAX_SIZE : ℚ := 1000

/-- `fn determine_pixels_per_point` (render.rs lines 25-46).  The inputs
are the page's dimensions in points after the `to_pt() as f32`
conversion, idealised as rationals; the `f32` square root and division
are idealised over the reals. -/
noncomputable def determine_pixels_per_point (x y : ℚ) : Except TooBig ℝ :=
  if x > MAX_SIZE then
    .error ⟨x, Axis.X⟩
  else if y > MAX_SIZE then
    .error ⟨y, Axis.Y⟩
  else
    .ok ((DESIRED_RESOLUTION : ℝ) / Real.sqrt ((x * y : ℚ) : ℝ))

/-- A page, reduced to its physical size `(width_pt, height_pt)`; its
renderable content is opaque to render.rs. -/
def Page : Type := ℚ × ℚ

/-- A rasterized pixel buffer as returned by `typst::export::render`. -/
structure Pixmap where
  width : Nat
  height : Nat
  pixels : List Nat
deriving DecidableEq, Repr

/-- `enum Error` (render.rs lines 142-150). -/
inductive Error where
  | Source : SourceErrorsWithSource → Error
  | TooBig : TooBig → Error
  | NoPages : Error

/-- `struct Output` (render.rs lines 152-155).  `more_pages` models
`Option<NonZeroUsize>`: `some n` carries a positive count. -/
structure Output where
  image : List Nat
  more_pages : Option Nat

/-- `NonZeroUsize::new` (render.rs line 165). -/
def nonZeroNew (n : Nat) : Option Nat :=
  if n = 0 then none else some n

/-- `fn render` (render.rs lines 157-186).  The external collaborators
are parameters: `compiled` is the outcome of `typst::compile` (a page
list on success, the diagnostics on failure), `rasterize` is
`typst::export::render`, and `encodePng` is the PNG encoding of the
pixel buffer.  `fill` is the background color, opaque to render.rs. -/
noncomputable def render (rasterize : Page → ℝ → Nat → Pixmap)
    (encodePng : Pixmap → List Nat) (fill : Nat)
    (compiled : Except (List Diagnostic) (List Page)) (sourceText : List Char) :
    Except Error Output :=
  match compiled with
  | .error errors => .error (.Source ⟨sourceText, errors⟩)
  | .ok pages =>
    match pages.get? 0 with
    | none => .error .NoPages
    | some frame =>
      let more_pages := nonZeroNew (pages.length - 1)
      match determine_pixels_per_point frame.1 frame.2 with
      | .error e => .error (.TooBig e)
      | .ok pixels_per_point =>
        let pixmap := rasterize frame pixels_per_point fill
        .ok ⟨encodePng pixmap, more_pages⟩

/-! Helper lemmas about character boundaries. -/

theorem utf8Len_nil : utf8Len [] = 0 := rfl

theorem utf8Len_cons (c : Char) (cs : List Char) :
    utf8Len (c :: cs) = c.utf8Size + utf8Len cs := by
  simp [utf8Len]

theorem utf8Len_drop_le (s : List Char) (k : Nat) : utf8Len (s.drop k) ≤ utf8Len s := by
  induction s generalizing k with
  | nil => simp
  | cons c cs ih =>
    cases k with
    | zero => simp
    | succ k =>
      have h1 : utf8Len (cs.drop k) ≤ utf8Len cs := ih k
      have h2 := Char.utf8Size_pos c
      simp only [List.drop_succ_cons, utf8Len_cons]
      omega

theorem mem_charBoundariesAux {s : List Char} {fb ci : Nat} {y : CharIndex}
    (h : y ∈ charBoundariesAux s fb ci) :
    fb ≤ y.first_byte ∧ ci ≤ y.char_index ∧ y.first_byte < fb + utf8Len s := by
  induction s generalizing fb ci with
  | nil => simp [charBoundariesAux] at h
  | cons c cs ih =>
    have hsz := Char.utf8Size_pos c
    simp only [charBoundariesAux, List.mem_cons] at h
    rcases h with h | h
    · subst h
      simp only [utf8Len_cons]
      omega
    · obtain ⟨h1, h2, h3⟩ := ih h
      simp only [utf8Len_cons]
      omega

theorem dropBytes_cons_of_pos {c : Char} {cs : List Char} {n : Nat} (h : 0 < n) :
    dropBytes (c :: cs) n = dropBytes cs (n - c.utf8Size) := by
  obtain ⟨m, rfl⟩ : ∃ m, n = m + 1 := ⟨n - 1, by omega⟩
  simp [dropBytes]

theorem dropBytes_of_mem_charBoundariesAux {s : List Char} {fb ci : Nat} {y : CharIndex}
    (h : y ∈ charBoundariesAux s fb ci) :
    dropBytes s (y.first_byte - fb) = s.drop (y.char_index - ci) ∧
      y.char_index - ci < s.length := by
  induction s generalizing fb ci with
  | nil => simp [charBoundariesAux] at h
  | cons c cs ih =>
    have hsz := Char.utf8Size_pos c
    simp only [charBoundariesAux, List.mem_cons] at h
    rcases h with h | h
    · subst h
      simp [dropBytes]
    · obtain ⟨hfb, hci, _⟩ := mem_charBoundariesAux h
      obtain ⟨ih1, ih2⟩ := ih h
      constructor
      · rw [dropBytes_cons_of_pos (by omega)]
        have e1 : y.first_byte - fb - c.utf8Size = y.first_byte - (fb + c.utf8Size) := by
          omega
        have e2 : y.char_index - ci = (y.char_index - (ci + 1)) + 1 := by omega
        rw [e1, e2, List.drop_succ_cons]
        exact ih1
      · simp only [List.length_cons]
        omega

theorem find?_charBoundariesAux_min {b : Nat} {x : CharIndex} :
    ∀ {s : List Char} {fb ci : Nat},
      (charBoundariesAux s fb ci).find? (fun idx => b ≤ idx.first_byte) = some x →
      ∀ y ∈ charBoundariesAux s fb ci, b ≤ y.first_byte → x.first_byte ≤ y.first_byte := by
  intro s
  induction s with
  | nil => intro fb ci h; simp [charBoundariesAux] at h
  | cons c cs ih =>
    intro fb ci h y hy hby
    simp only [charBoundariesAux] at h hy
    by_cases hb : b ≤ fb
    · rw [List.find?_cons_of_pos _ (by simpa using hb)] at h
      injection h with h
      subst h
      show fb ≤ y.first_byte
      rcases List.mem_cons.mp hy with hy | hy
      · subst hy; exact le_refl _
      · have h1 := (mem_charBoundariesAux hy).1
        have hsz := Char.utf8Size_pos c
        omega
    · rw [List.find?_cons_of_neg _ (by simpa using hb)] at h
      rcases List.mem_cons.mp hy with hy | hy
      · subst hy
        exact absurd hby hb
      · exact ih h y hy hby

theorem byte_index_to_char_index_eq_none_iff {s : List Char} {b : Nat} :
    byte_index_to_char_index s b = none ↔ ∀ ci ∈ charBoundaries s, ci.first_byte < b := by
  simp [byte_index_to_char_index, List.find?_eq_none, Nat.not_le, Nat.lt_iff_add_one_le]

theorem byte_index_to_char_index_cons_zero (c : Char) (cs : List Char) :
    byte_index_to_char_index (c :: cs) 0 = some ⟨0, 0⟩ := rfl

theorem usizeSub_self (p : Nat) : usizeSub p p = 0 := by
  have h : p + 2 ^ 64 - p = 2 ^ 64 := by omega
  simp [usizeSub, h]

theorem resolveAfterNormalize_none_of_start_none {s : List Char} {sp : Nat × Nat}
    (h : byte_index_to_char_index s sp.1 = none) :
    resolveAfterNormalize s sp = none := by
  simp [resolveAfterNormalize, h]

/-! Claim theorems. -/

/-- Claim C1: the claim states that for pure-ASCII text and in-bounds byte
spans, `byte_span_to_char_span` returns `some` of the numerically equal
character range.  The code refutes it: on the ASCII text "ab" the
in-bounds spans `0..1` and `0..2` both map to `none`, because the
normalization swap on line 83 inverts already-ordered ranges, making the
`span.end - span.start` distance on line 88 underflow (debug builds
panic; release builds wrap, and the wrapped distance resolves no
boundary).  This theorem evaluates the code at the failing inputs. -/
theorem byte_span_to_char_span_ascii_failing_input :
    (['a', 'b'].all fun c => c.utf8Size == 1) = true ∧
      utf8Len ['a', 'b'] = 2 ∧
      byte_span_to_char_span ['a', 'b'] (0, 1) = none ∧
      byte_span_to_char_span ['a', 'b'] (0, 2) = none := by
  decide

/-- Claim C2: the normalization step of `byte_span_to_char_span` swaps
`start` and `end` exactly when `start < end`, handing the inverted pair
to the rest of the algorithm (`resolveAfterNormalize`); ranges with
`start >= end` are passed through unswapped. -/
theorem byte_span_normalization_swaps_ordered_ranges (source : List Char) (s e : Nat) :
    (s < e → byte_span_to_char_span source (s, e) = resolveAfterNormalize source (e, s)) ∧
      (e ≤ s → byte_span_to_char_span source (s, e) = resolveAfterNormalize source (s, e)) := by
  constructor
  · intro h
    simp [byte_span_to_char_span, h]
  · intro h
    simp [byte_span_to_char_span, Nat.not_lt.mpr h]

/-- Witness for C2 at the concrete ordered range `0..1` on the text
"a": the swap hands `(1, 0)` to the remainder of the algorithm. -/
theorem byte_span_normalization_swaps_ordered_ranges_witness :
    byte_span_to_char_span ['a'] (0, 1) = resolveAfterNormalize ['a'] (1, 0) :=
  (byte_span_normalization_swaps_ordered_ranges ['a'] 0 1).1 (by decide)

/-- Claim C3: the claim states the `span.end - span.start` distance on
line 88 never underflows.  The code refutes it: on text "ab" with span
`0..1` the normalization swap produces `start = 1, end = 0`, the start
offset resolves to a boundary, and line 88 computes `0 - 1` in `usize`
(`endDistanceUnderflows` marks exactly this situation).  Under release
wrapping semantics the function then returns `none`. -/
theorem byte_span_end_distance_underflow_failing_input :
    endDistanceUnderflows ['a', 'b'] (0, 1) = true ∧
      byte_span_to_char_span ['a', 'b'] (0, 1) = none := by
  decide

/-- Claim C4, counterexample: the claim states that when span mapping
fails for some diagnostic, no report block for an earlier diagnostic is
emitted.  In the code the loop writes each block to the formatter before
examining the next diagnostic, so when the second diagnostic's span
fails to map, the first diagnostic's block has already been written:
the formatting operation fails, but with partial output emitted. -/
theorem fmt_partial_output_counterexample :
    SourceErrorsWithSource.fmt sampleBlock
        ⟨['a', 'b'],
          [⟨"first", (0, 1), ErrorPos.Start⟩, ⟨"second", (0, 1), ErrorPos.Full⟩]⟩ =
      ("Error: first", false) ∧
      byte_span_to_char_span ['a', 'b'] (adjustSpan ErrorPos.Full (0, 1)) = none ∧
      "Error: first" ≠ "" := by
  refine ⟨?_, by decide, by decide⟩
  rfl

/-- Helper for C4: the formatting loop, run from any accumulator, stops
with an error at the first diagnostic whose span fails to map, having
appended exactly the blocks of the diagnostics before it. -/
theorem fmtGo_of_mapping_failure (render : Diagnostic → Nat × Nat → String)
    (source : List Char) :
    ∀ (errs : List Diagnostic) (acc : String),
      (∃ d ∈ errs, byte_span_to_char_span source (adjustSpan d.pos d.span) = none) →
      fmtGo render source errs acc =
        (acc ++ concatBlocks ((errs.takeWhile fun d =>
            (byte_span_to_char_span source (adjustSpan d.pos d.span)).isSome).map
          (blockOf render source)), false) := by
  intro errs
  induction errs with
  | nil =>
    intro acc h
    simp at h
  | cons d rest ih =>
    intro acc h
    cases hm : byte_span_to_char_span source (adjustSpan d.pos d.span) with
    | none =>
      simp only [fmtGo, hm, List.takeWhile_cons, Option.isSome_none, Bool.false_eq_true,
        if_false, List.map_nil, concatBlocks, List.foldr_nil, String.append_empty]
    | some cs =>
      have hrest : ∃ d2 ∈ rest,
          byte_span_to_char_span source (adjustSpan d2.pos d2.span) = none := by
        rcases h with ⟨d2, hd2, hnone⟩
        rcases List.mem_cons.mp hd2 with rfl | hd2
        · rw [hm] at hnone
          cases hnone
        · exact ⟨d2, hd2, hnone⟩
      simp only [fmtGo, hm]
      rw [ih (acc ++ render d cs) hrest]
      simp only [List.takeWhile_cons, hm, Option.isSome_some, if_true, List.map_cons,
        concatBlocks, List.foldr_cons, blockOf, String.append_assoc]

/-- Claim C4 as amended: if span mapping fails for some diagnostic in
the list, the whole formatting operation fails with an error (it never
succeeds with partial or empty output), but the report blocks of the
diagnostics preceding the first failing one have already been emitted
to the formatter. -/
theorem fmt_fails_after_partial_output (render : Diagnostic → Nat × Nat → String)
    (source : List Char) (errs : List Diagnostic)
    (h : ∃ d ∈ errs, byte_span_to_char_span source (adjustSpan d.pos d.span) = none) :
    SourceErrorsWithSource.fmt render ⟨source, errs⟩ =
      (concatBlocks ((errs.takeWhile fun d =>
          (byte_span_to_char_span source (adjustSpan d.pos d.span)).isSome).map
        (blockOf render source)), false) := by
  have h2 := fmtGo_of_mapping_failure render source errs "" h
  simpa [SourceErrorsWithSource.fmt] using h2

/-- Witness for the amended C4 at a concrete input: the first
diagnostic maps, the second fails, and the result is the first block
together with the error. -/
theorem fmt_fails_after_partial_output_witness :
    SourceErrorsWithSource.fmt sampleBlock
        ⟨['h', 'i'], [⟨"x", (0, 0), ErrorPos.Full⟩, ⟨"y", (0, 2), ErrorPos.Full⟩]⟩ =
      ("Error: x", false) := by
  rw [fmt_fails_after_partial_output sampleBlock ['h', 'i']
      [⟨"x", (0, 0), ErrorPos.Full⟩, ⟨"y", (0, 2), ErrorPos.Full⟩]
      ⟨⟨"y", (0, 2), ErrorPos.Full⟩, by decide, by decide⟩]
  decide

/-- Claim C5: the width check runs before the height check.  If
`width_pt > 1000` the result is `TooBig` with axis `X` and the width,
for every height (so a page oversized on both axes reports `X`);
otherwise if `height_pt > 1000` the result is `TooBig` with axis `Y`
and the height. -/
theorem determine_pixels_per_point_checks_x_before_y (x y : ℚ) :
    (1000 < x → determine_pixels_per_point x y = .error ⟨x, Axis.X⟩) ∧
      (x ≤ 1000 → 1000 < y → determine_pixels_per_point x y = .error ⟨y, Axis.Y⟩) := by
  constructor
  · intro h
    simp [determine_pixels_per_point, MAX_SIZE, h]
  · intro h1 h2
    simp [determine_pixels_per_point, MAX_SIZE, not_lt.mpr h1, h2]

/-- Witness for C5 at the spec's concrete inputs: `(1001, 10)` fails on
axis `X` even though the height is small, and `(10, 1001)` fails on
axis `Y`. -/
theorem determine_pixels_per_point_checks_x_before_y_witness :
    determine_pixels_per_point 1001 10 = .error ⟨1001, Axis.X⟩ ∧
      determine_pixels_per_point 10 1001 = .error ⟨1001, Axis.Y⟩ :=
  ⟨(determine_pixels_per_point_checks_x_before_y 1001 10).1 (by norm_num),
    (determine_pixels_per_point_checks_x_before_y 10 1001).2 (by norm_num) (by norm_num)⟩

/-- Claim C6: when both dimensions are at most 1000 pt the policy
succeeds and returns `DESIRED_RESOLUTION / sqrt(width * height)`; the
ceiling is strict (`> 1000` fails, `== 1000` does not): a
`(1000, 1000)` page succeeds (with scale 1), and `(500, 500)` yields
scale 2. -/
theorem determine_pixels_per_point_scale_within_ceiling :
    (∀ x y : ℚ, x ≤ 1000 → y ≤ 1000 →
        determine_pixels_per_point x y = .ok ((1000 : ℝ) / Real.sqrt ((x * y : ℚ) : ℝ))) ∧
      (∀ x y : ℚ, 1000 < x ∨ 1000 < y → ∀ r : ℝ, determine_pixels_per_point x y ≠ .ok r) ∧
      determine_pixels_per_point 1000 1000 = .ok 1 ∧
      determine_pixels_per_point 500 500 = .ok 2 := by
  have hgen : ∀ x y : ℚ, x ≤ 1000 → y ≤ 1000 →
      determine_pixels_per_point x y = .ok ((1000 : ℝ) / Real.sqrt ((x * y : ℚ) : ℝ)) := by
    intro x y hx hy
    simp [determine_pixels_per_point, MAX_SIZE, DESIRED_RESOLUTION,
      not_lt.mpr hx, not_lt.mpr hy]
  refine ⟨hgen, ?_, ?_, ?_⟩
  · intro x y h r
    rcases h with h | h
    · simp [determine_pixels_per_point, MAX_SIZE, h]
    · by_cases hx : 1000 < x
      · simp [determine_pixels_per_point, MAX_SIZE, hx]
      · simp [determine_pixels_per_point, MAX_SIZE, hx, h]
  · rw [hgen 1000 1000 (le_refl _) (le_refl _)]
    have h1 : ((1000 * 1000 : ℚ) : ℝ) = 1000 ^ 2 := by norm_num
    rw [h1, Real.sqrt_sq (by norm_num : (0:ℝ) ≤ 1000)]
    norm_num
  · rw [hgen 500 500 (by norm_num) (by norm_num)]
    have h1 : ((500 * 500 : ℚ) : ℝ) = 500 ^ 2 := by norm_num
    rw [h1, Real.sqrt_sq (by norm_num : (0:ℝ) ≤ 500)]
    norm_num

/-- Witness for C6: applying the general success case at `(500, 500)`
produces the `DESIRED_RESOLUTION / sqrt(area)` scale. -/
theorem determine_pixels_per_point_scale_within_ceiling_witness :
    determine_pixels_per_point 500 500 =
      .ok ((1000 : ℝ) / Real.sqrt ((500 * 500 : ℚ) : ℝ)) :=
  determine_pixels_per_point_scale_within_ceiling.1 500 500 (by norm_num) (by norm_num)

/-- Claim C7: a successful render has at least one page, and
`more_pages` is `some (total_pages - 1)` when more than one page exists
and `none` when exactly one does. -/
theorem render_more_pages_count (rasterize : Page → ℝ → Nat → Pixmap)
    (encodePng : Pixmap → List Nat) (fill : Nat) (pages : List Page)
    (sourceText : List Char) (out : Output)
    (h : render rasterize encodePng fill (.ok pages) sourceText = .ok out) :
    1 ≤ pages.length ∧
      (1 < pages.length → out.more_pages = some (pages.length - 1)) ∧
      (pages.length = 1 → out.more_pages = none) := by
  unfold render at h
  split at h
  · cases h
  next pgs heq =>
    injection heq with heq
    subst heq
    split at h
    · cases h
    next frame hget =>
      split at h
      · cases h
      next ppp hd =>
        simp only [Except.ok.injEq] at h
        subst h
        have hlen : 0 < pages.length := (List.get?_eq_some.mp hget).1
        refine ⟨hlen, ?_, ?_⟩
        · intro hgt
          show nonZeroNew (pages.length - 1) = some (pages.length - 1)
          simp only [nonZeroNew]
          rw [if_neg (by omega)]
        · intro heq1
          show nonZeroNew (pages.length - 1) = none
          simp only [nonZeroNew]
          rw [if_pos (by omega)]

/-- Witness for C7: a successful three-page render reports two more
pages (and, by the same theorem, a one-page render would report none). -/
theorem render_more_pages_count_witness :
    (Output.mk [] (some 2)).more_pages = some 2 := by
  have h : render (fun _ _ _ => ⟨0, 0, []⟩) (fun _ => []) 0
      (.ok [((500 : ℚ), (500 : ℚ)), (500, 500), (500, 500)]) [] = .ok ⟨[], some 2⟩ := by
    norm_num [render, determine_pixels_per_point, MAX_SIZE, nonZeroNew]
  have h2 := (render_more_pages_count _ _ _ _ _ _ h).2.1 (by norm_num)
  exact h2

/-- Claim C8: `byte_index_to_char_index` returns the first character
boundary whose byte offset is at or after the target (`none` exactly
when every boundary lies strictly before it), and any byte offset
beyond the text's byte length makes `byte_span_to_char_span` return
`none`. -/
theorem byte_index_to_char_index_first_boundary (source : List Char) :
    (∀ b : Nat,
        (byte_index_to_char_index source b = none ↔
          ∀ ci ∈ charBoundaries source, ci.first_byte < b) ∧
        ∀ ci, byte_index_to_char_index source b = some ci →
          ci ∈ charBoundaries source ∧ b ≤ ci.first_byte ∧
            ∀ y ∈ charBoundaries source, b ≤ y.first_byte → ci.first_byte ≤ y.first_byte) ∧
      ∀ s e : Nat, utf8Len source < s ∨ utf8Len source < e →
        byte_span_to_char_span source (s, e) = none := by
  constructor
  · intro b
    constructor
    · exact byte_index_to_char_index_eq_none_iff
    · intro ci h
      refine ⟨List.mem_of_find?_eq_some h, ?_, ?_⟩
      · have h2 := List.find?_some h
        simpa using h2
      · exact find?_charBoundariesAux_min h
  · intro s e h
    have key : ∀ m : Nat, utf8Len source < m → byte_index_to_char_index source m = none := by
      intro m hm
      rw [byte_index_to_char_index_eq_none_iff]
      intro y hy
      simp only [charBoundaries] at hy
      have h3 := (mem_charBoundariesAux hy).2.2
      omega
    by_cases hlt : s < e
    · have h1 : byte_span_to_char_span source (s, e) = resolveAfterNormalize source (e, s) := by
        simp [byte_span_to_char_span, hlt]
      rw [h1]
      exact resolveAfterNormalize_none_of_start_none (key e (by omega))
    · have h1 : byte_span_to_char_span source (s, e) = resolveAfterNormalize source (s, e) := by
        simp [byte_span_to_char_span, hlt]
      rw [h1]
      exact resolveAfterNormalize_none_of_start_none (key s (by omega))

/-- Witness for C8: the out-of-range byte offset 3 on the two-byte text
"ab" makes the span mapper fail. -/
theorem byte_index_to_char_index_first_boundary_witness :
    byte_span_to_char_span ['a', 'b'] (3, 0) = none :=
  (byte_index_to_char_index_first_boundary ['a', 'b']).2 3 0 (Or.inl (by decide))

/-- Claim C9, counterexample: the claim states every empty byte range
maps to a zero-width character range, including at the very end of the
text.  The code refutes the end-of-text case: on the one-byte text "a"
the empty span `1..1` sits at the byte length, `char_indices` offers no
boundary at or after offset 1, and the mapper returns `none`. -/
theorem empty_span_at_end_counterexample :
    utf8Len ['a'] = 1 ∧ byte_span_to_char_span ['a'] (1, 1) = none := by
  decide

/-- Claim C9 as amended: an empty byte range `p..p` maps to `some` of a
zero-width character range whenever some character boundary lies at or
after `p`; when no boundary does — in particular for the empty span at
the very end of the text — the mapper returns `none`. -/
theorem empty_span_maps_to_zero_width (source : List Char) (p : Nat) (ci : CharIndex)
    (h : byte_index_to_char_index source p = some ci) :
    byte_span_to_char_span source (p, p) = some (ci.char_index, ci.char_index) := by
  have hmem : ci ∈ charBoundariesAux source 0 0 := List.mem_of_find?_eq_some h
  obtain ⟨hdrop, hlen⟩ := dropBytes_of_mem_charBoundariesAux hmem
  simp only [Nat.sub_zero] at hdrop hlen
  obtain ⟨c, cs, hcc⟩ : ∃ c cs, source.drop ci.char_index = c :: cs := by
    cases hd : source.drop ci.char_index with
    | nil =>
      exfalso
      have h4 := List.drop_eq_nil_iff.mp hd
      omega
    | cons c cs => exact ⟨c, cs, rfl⟩
  have h1 : byte_span_to_char_span source (p, p) = resolveAfterNormalize source (p, p) := by
    simp [byte_span_to_char_span]
  rw [h1]
  simp only [resolveAfterNormalize, h, usizeSub_self, hdrop, hcc,
    byte_index_to_char_index_cons_zero, CharIndex.add, Nat.zero_add]

/-- Witness for the amended C9: the empty span `1..1` inside the text
"ab" maps to the zero-width character range `1..1`. -/
theorem empty_span_maps_to_zero_width_witness :
    byte_span_to_char_span ['a', 'b'] (1, 1) = some (1, 1) :=
  empty_span_maps_to_zero_width ['a', 'b'] 1 ⟨1, 1⟩ (by decide)

/-- Claim C10: the span handed to the span mapper is adjusted by the
diagnostic's position kind — `Full` keeps the resolved byte span,
`Start` collapses it to `start..start`, `End` collapses it to
`end..end` — and the formatting loop maps exactly the adjusted span. -/
theorem adjustSpan_position_kinds (s e : Nat) :
    adjustSpan .Full (s, e) = (s, e) ∧
      adjustSpan .Start (s, e) = (s, s) ∧
      adjustSpan .End (s, e) = (e, e) ∧
      ∀ (render : Diagnostic → Nat × Nat → String) (source : List Char)
        (d : Diagnostic) (rest : List Diagnostic) (acc : String),
        fmtGo render source (d :: rest) acc =
          match byte_span_to_char_span source (adjustSpan d.pos d.span) with
          | none => (acc, false)
          | some cs => fmtGo render source rest (acc ++ render d cs) := by
  refine ⟨rfl, rfl, rfl, ?_⟩
  intro render source d rest acc
  rfl

end RenderRs
